import Mathlib

/-!
Verification of the document QA service core: the sentence chunker, the
FAISS index store / access-metadata lifecycle (`save_faiss_index`,
`load_faiss_index`, `clean_old_indexes`), the QA orchestrator
(`generate_answer_by_id`, `validate_qa_request`) and the scheduled
cleanup job (`cleanup_job`), shallowly embedded from
`src/service/document_qa_service.py` and `src/service/scheduler_service.py`.

Timestamps are modelled as integers (a fixed time unit); the FAISS index
structure, the sentence segmentation model, the embedding model and the
LLM are opaque external collaborators modelled as function parameters.
-/

namespace DocQA

/-! ## Chunker

`generate_answer_by_id` (document_qa_service.py, lines 73-81):

```
chunks, chunk, length = [], [], 0
for sentence in sentences:
    if length + len(sentence) > 1600:
        chunks.append(" ".join(chunk))
        chunk, length = [], 0
    chunk.append(sentence)
    length += len(sentence)
if chunk:
    chunks.append(" ".join(chunk))
```

`chunkRec` transcribes the loop, carrying the accumulators
(`chunks`, `chunk`, `length`); the chunk threshold `1600` is kept as a
parameter `T` so the bound can be stated for every threshold. Chunks are
kept as sentence lists; the emitted strings are the `" ".join` of each.
-/

/-- One pass of the chunking loop over the remaining sentences. -/
def chunkRec (T : Nat) : List String → List (List String) → List String → Nat →
    List (List String)
  | [], chunks, chunk, _ =>
      if chunk = [] then chunks else chunks ++ [chunk]
  | s :: rest, chunks, chunk, length =>
      if length + s.length > T then
        chunkRec T rest (chunks ++ [chunk]) [s] s.length
      else
        chunkRec T rest chunks (chunk ++ [s]) (length + s.length)

/-- The chunker on a sentence sequence, as lists of sentences per chunk. -/
def chunkSentences (T : Nat) (sentences : List String) : List (List String) :=
  chunkRec T sentences [] [] 0

/-- The chunk strings actually emitted: `" ".join(chunk)` for each chunk. -/
def chunkStrings (T : Nat) (sentences : List String) : List String :=
  (chunkSentences T sentences).map (fun c => String.intercalate " " c)

/-- Sum of the character lengths of the sentences in a chunk. -/
def chunkCharSum (c : List String) : Nat :=
  (c.map String.length).sum

/-- The bound each emitted chunk satisfies: the total sentence length stays
within the threshold, except for a chunk holding a single oversized
sentence. -/
def ChunkBound (T : Nat) (c : List String) : Prop :=
  chunkCharSum c ≤ T ∨ ∃ s, c = [s] ∧ T < s.length

/-! ## Index store and access metadata state

The on-disk state the service mutates: the set of persisted index files
(`faiss_indexes/<document_id>.faiss`, modelled by the list of document
ids that have a file) and the metadata map
(`index_metadata.json`: document_id → last_access, modelled as an
association list in insertion order, matching a Python dict). -/

structure QAState where
  files : List String
  metadata : List (String × Int)
deriving DecidableEq, Repr

/-- Python dict assignment `metadata[document_id] = {"last_access": now}`:
replace the value in place when the key exists, append otherwise. -/
def setEntry : List (String × Int) → String → Int → List (String × Int)
  | [], k, v => [(k, v)]
  | (k', v') :: rest, k, v =>
      if k' = k then (k, v) :: rest else (k', v') :: setEntry rest k v

/-- `save_faiss_index` (lines 105-113): write the index file for
`document_id` (create when absent, overwrite when present), then touch the
metadata entry and persist the map. Timestamp `now` stands for
`datetime.now()`. -/
def save_faiss_index (docId : String) (now : Int) (st : QAState) : QAState :=
  { files := if docId ∈ st.files then st.files else st.files ++ [docId]
    metadata := setEntry st.metadata docId now }

/-- `load_faiss_index` (lines 115-129): when the index file is absent,
return `none` without touching anything; otherwise touch and persist the
metadata entry first, then deserialize the file
(`FAISS.load_local`, modelled by the collaborator `deser`, whose
`.error` case stands for a raised deserialization exception). -/
def load_faiss_index {α : Type} (deser : String → Except String α)
    (docId : String) (now : Int) (st : QAState) :
    Except String (Option α) × QAState :=
  if docId ∈ st.files then
    let st' : QAState := ⟨st.files, setEntry st.metadata docId now⟩
    match deser docId with
    | .ok idx => (.ok (some idx), st')
    | .error e => (.error e, st')
  else
    (.ok none, st)

/-- `clean_old_indexes` (lines 143-159), the loop over the metadata
entries: an entry older than the threshold has its index file removed
(when the file exists) and is dropped; a younger one is copied into
`updated_metadata`. -/
def cleanRec (now thr : Int) :
    List (String × Int) → List String → List (String × Int) →
    List String × List (String × Int)
  | [], files, updated => (files, updated)
  | (d, t) :: rest, files, updated =>
      if now - t > thr then
        cleanRec now thr rest (files.filter (fun f => f ≠ d)) updated
      else
        cleanRec now thr rest files (updated ++ [(d, t)])

/-- `clean_old_indexes`: sweep the metadata map, persist the retained
entries, and return the value the Python function returns
(`updated_metadata`). The threshold `thr` stands for
`timedelta(hours=INACTIVITY_THRESHOLD_HOURS)` in the common time unit. -/
def clean_old_indexes (st : QAState) (now thr : Int) :
    QAState × List (String × Int) :=
  let res := cleanRec now thr st.metadata st.files []
  (⟨res.1, res.2⟩, res.2)

/-- The identifiers `clean_old_indexes` evicts. Modelled from the spec:
`sweep(threshold_duration) -> set of evicted document_ids` — "for every
entry whose `now - last_access > threshold_duration`, removes the entry
…, and returns the set of removed identifiers". Used to compare the
claimed return value of the sweep with the one of the code. -/
def sweepEvictedIds (metadata : List (String × Int)) (now thr : Int) :
    List String :=
  (metadata.filter (fun p => now - p.2 > thr)).map Prod.fst

/-- The consistency invariant between the two persisted artifacts: a
metadata entry exists exactly for the document ids that have a persisted
index file. -/
def StoreInv (st : QAState) : Prop :=
  ∀ d, d ∈ st.metadata.map Prod.fst ↔ d ∈ st.files

/-! ## Request validation and the QA orchestrator -/

/-- An HTTP-level error as raised by
`raise_http_exception(status_code, message)` (error_utils.py). -/
structure HttpError where
  status_code : Nat
  message : String
deriving DecidableEq, Repr

/-- `validate_qa_request` (lines 51-58): reject an empty question, then an
empty document id, each with a 400 error; accept otherwise. The Python
test `not s` on a string is the emptiness test. -/
def validate_qa_request (question docId : String) : Except HttpError Unit :=
  if question = "" then
    .error ⟨400, "Question cannot be empty"⟩
  else if docId = "" then
    .error ⟨400, "Document ID is required"⟩
  else
    .ok ()

/-- The relational document store lookup
(`select(DocumentModel).where(DocumentModel.id == document_id)` +
`scalar_one_or_none()`): content of the document with this id, if any. -/
def getDocument (docs : List (String × String)) (docId : String) :
    Option String :=
  (docs.find? (fun p => p.1 = docId)).map Prod.snd

/-- `generate_answer_by_id` (lines 60-103). External collaborators are
parameters: `segment` is the spaCy sentence segmentation (including the
per-sentence `strip()`), `deser` is `FAISS.load_local`,
`buildIndex` is `FAISS.from_documents` with the embedding model over the
chunk strings, `ragAnswer` is the `RetrievalQA` chain invocation. The
function returns the answer payload together with the state of the index
store and metadata map; a raised exception is the `.error` case. -/
def generate_answer_by_id {α : Type} (segment : String → List String)
    (deser : String → Except String α)
    (buildIndex : List String → α)
    (ragAnswer : α → String → String)
    (now : Int) (docs : List (String × String))
    (question docId : String) (st : QAState) :
    Except String (String × QAState) :=
  match getDocument docs docId with
  | none => .ok ("No document found with id " ++ docId, st)
  | some content =>
      let sentences := segment content
      let chunks := chunkStrings 1600 sentences
      match load_faiss_index deser docId now st with
      | (.error e, _) => .error e
      | (.ok r, st') =>
          match r with
          | some idx => .ok (ragAnswer idx question, st')
          | none =>
              let idx := buildIndex chunks
              .ok (ragAnswer idx question,
                save_faiss_index docId now st')

/-- The `/api/v1/qa` endpoint body (document_qa_endpoint.py): validate the
request, then generate the answer. -/
def ask_question {α : Type} (segment : String → List String)
    (deser : String → Except String α)
    (buildIndex : List String → α)
    (ragAnswer : α → String → String)
    (now : Int) (docs : List (String × String))
    (question docId : String) (st : QAState) :
    Except HttpError (Except String (String × QAState)) :=
  match validate_qa_request question docId with
  | .error e => .error e
  | .ok () =>
      .ok (generate_answer_by_id segment deser buildIndex ragAnswer now docs
        question docId st)

/-! ## Scheduled cleanup job

`cleanup_job` (scheduler_service.py, lines 15-17):

```
def cleanup_job():
    cleaned = DocumentQAService.clean_old_indexes()
    logger.info(f"FAISS index cleanup done. Remaining indexes: {list(cleaned.keys())}")
```

There is no `try`/`except`: an exception raised by the sweep propagates
to the caller of the job (the scheduler framework). The sweep outcome is
a parameter (`.error` = the sweep raised); the observable output of the
job is the list of ids it logs. -/
def cleanup_job (sweepOutcome : Except String (QAState × List (String × Int))) :
    Except String (List String) :=
  match sweepOutcome with
  | .ok (_, cleaned) => .ok (cleaned.map Prod.fst)
  | .error e => .error e

/-! ## Chunker lemmas -/

theorem chunkRec_flatten (T : Nat) (rest : List String) (chunks : List (List String))
    (chunk : List String) (length : Nat) :
    (chunkRec T rest chunks chunk length).flatten = chunks.flatten ++ chunk ++ rest := by
  induction rest generalizing chunks chunk length with
  | nil =>
      by_cases h : chunk = [] <;> simp [chunkRec, h]
  | cons s rest ih =>
      by_cases h : length + s.length > T <;>
        simp [chunkRec, h, ih, List.flatten_append, List.append_assoc]

theorem chunkRec_bound (T : Nat) (rest : List String) (chunks : List (List String))
    (chunk : List String) (length : Nat)
    (hchunks : ∀ c ∈ chunks, ChunkBound T c)
    (hchunk : ChunkBound T chunk)
    (hlen : length = chunkCharSum chunk) :
    ∀ c ∈ chunkRec T rest chunks chunk length, ChunkBound T c := by
  induction rest generalizing chunks chunk length with
  | nil =>
      intro c hc
      by_cases h : chunk = []
      · simp [chunkRec, h] at hc
        exact hchunks c hc
      · simp [chunkRec, h] at hc
        rcases hc with hc | hc
        · exact hchunks c hc
        · exact hc ▸ hchunk
  | cons s rest ih =>
      intro c hc
      by_cases h : length + s.length > T
      · simp only [chunkRec, if_pos h] at hc
        refine ih (chunks ++ [chunk]) [s] s.length ?_ ?_ ?_ c hc
        · intro c' hc'
          rcases List.mem_append.mp hc' with h' | h'
          · exact hchunks c' h'
          · simp at h'
            exact h' ▸ hchunk
        · by_cases hs : s.length ≤ T
          · exact Or.inl (by simp [chunkCharSum, hs])
          · exact Or.inr ⟨s, rfl, Nat.lt_of_not_le hs⟩
        · simp [chunkCharSum]
      · simp only [chunkRec, if_neg h] at hc
        refine ih chunks (chunk ++ [s]) (length + s.length) hchunks ?_ ?_ c hc
        · refine Or.inl ?_
          have : chunkCharSum (chunk ++ [s]) = length + s.length := by
            simp [chunkCharSum, hlen]
          rw [this]
          exact Nat.le_of_not_lt h
        · simp [chunkCharSum, hlen]

/-- Every chunk the chunker emits satisfies the bound. -/
theorem chunkSentences_bound (T : Nat) (sentences : List String) :
    ∀ c ∈ chunkSentences T sentences, ChunkBound T c := by
  refine chunkRec_bound T sentences [] [] 0 ?_ ?_ rfl
  · intro c hc
    simp at hc
  · exact Or.inl (by simp [chunkCharSum])

/-- The chunking loop only ever appends to the emitted-chunks accumulator. -/
theorem chunkRec_extends (T : Nat) (rest : List String)
    (chunks : List (List String)) (chunk : List String) (length : Nat) :
    ∃ tl, chunkRec T rest chunks chunk length = chunks ++ tl := by
  induction rest generalizing chunks chunk length with
  | nil =>
      by_cases h : chunk = []
      · exact ⟨[], by simp [chunkRec, h]⟩
      · exact ⟨[chunk], by simp [chunkRec, h]⟩
  | cons s rest ih =>
      by_cases h : length + s.length > T
      · obtain ⟨tl, htl⟩ := ih (chunks ++ [chunk]) [s] s.length
        exact ⟨[chunk] ++ tl, by simp [chunkRec, if_pos h, htl]⟩
      · obtain ⟨tl, htl⟩ := ih chunks (chunk ++ [s]) (length + s.length)
        exact ⟨tl, by simp [chunkRec, if_neg h, htl]⟩

theorem intercalate_go_length (acc : String) (as : List String) :
    (String.intercalate.go acc " " as).length =
      acc.length + chunkCharSum as + as.length := by
  induction as generalizing acc with
  | nil => simp [String.intercalate.go, chunkCharSum]
  | cons a as ih =>
      have hsp : (" " : String).length = 1 := rfl
      simp only [String.intercalate.go, ih, String.length_append, hsp,
        chunkCharSum, List.map_cons, List.sum_cons, List.length_cons]
      omega

/-- Character length of the emitted chunk string: the sentence lengths
plus one separator space per sentence boundary. -/
theorem intercalate_space_length (c : List String) :
    (String.intercalate " " c).length = chunkCharSum c + (c.length - 1) := by
  cases c with
  | nil => simp [String.intercalate, chunkCharSum]
  | cons a as =>
      show (String.intercalate.go a " " as).length = _
      rw [intercalate_go_length]
      simp only [chunkCharSum, List.map_cons, List.sum_cons, List.length_cons]
      omega

/-! ## Sweep lemmas -/

theorem cleanRec_metadata (now thr : Int) (meta : List (String × Int))
    (files : List String) (updated : List (String × Int)) :
    (cleanRec now thr meta files updated).2 =
      updated ++ meta.filter (fun p => now - p.2 ≤ thr) := by
  induction meta generalizing files updated with
  | nil => simp [cleanRec]
  | cons p rest ih =>
      obtain ⟨d, t⟩ := p
      by_cases h : now - t > thr
      · have h' : decide (now - t ≤ thr) = false := by
          simp [not_le.mpr h]
        simp only [cleanRec, if_pos h, ih, List.filter_cons, h',
          Bool.false_eq_true, if_false]
      · have h' : decide (now - t ≤ thr) = true := by
          simp [not_lt.mp h]
        simp only [cleanRec, if_neg h, ih, List.filter_cons, h', if_true]
        simp

theorem cleanRec_files_mem (now thr : Int) (meta : List (String × Int))
    (files : List String) (updated : List (String × Int)) (a : String) :
    a ∈ (cleanRec now thr meta files updated).1 ↔
      a ∈ files ∧ a ∉ sweepEvictedIds meta now thr := by
  induction meta generalizing files updated with
  | nil => simp [cleanRec, sweepEvictedIds]
  | cons p rest ih =>
      obtain ⟨d, t⟩ := p
      by_cases h : now - t > thr
      · simp only [cleanRec, if_pos h]
        rw [ih]
        simp only [List.mem_filter, sweepEvictedIds, List.filter_cons,
          decide_eq_true_eq, if_pos h, List.map_cons, List.mem_cons]
        constructor
        · rintro ⟨⟨ha, hd⟩, hrest⟩
          exact ⟨ha, by
            push_neg
            exact ⟨by simpa using hd, by simpa [sweepEvictedIds] using hrest⟩⟩
        · rintro ⟨ha, hne⟩
          push_neg at hne
          exact ⟨⟨ha, by simpa using hne.1⟩, by simpa [sweepEvictedIds] using hne.2⟩
      · simp only [cleanRec, if_neg h]
        rw [ih]
        simp [sweepEvictedIds, List.filter_cons, h]

/-- The value `clean_old_indexes` returns is the retained part of the
metadata map: the entries whose age is at most the threshold, in order. -/
theorem clean_old_indexes_ret (st : QAState) (now thr : Int) :
    (clean_old_indexes st now thr).2 =
      st.metadata.filter (fun p => now - p.2 ≤ thr) := by
  simp [clean_old_indexes, cleanRec_metadata]

/-- A file survives the sweep exactly when its id was not evicted. -/
theorem clean_old_indexes_files_mem (st : QAState) (now thr : Int) (a : String) :
    a ∈ (clean_old_indexes st now thr).1.files ↔
      a ∈ st.files ∧ a ∉ sweepEvictedIds st.metadata now thr := by
  simp [clean_old_indexes, cleanRec_files_mem]

/-! ## Metadata map lemmas -/

theorem mem_keys_setEntry (m : List (String × Int)) (k : String) (v : Int)
    (x : String) :
    x ∈ (setEntry m k v).map Prod.fst ↔ x ∈ m.map Prod.fst ∨ x = k := by
  induction m with
  | nil => simp [setEntry]
  | cons p rest ih =>
      obtain ⟨k', v'⟩ := p
      by_cases h : k' = k
      · subst h
        simp [setEntry]
        tauto
      · simp [setEntry, h, ih]
        tauto

theorem setEntry_keys_of_mem (m : List (String × Int)) (k : String) (v : Int)
    (hk : k ∈ m.map Prod.fst) :
    (setEntry m k v).map Prod.fst = m.map Prod.fst := by
  induction m with
  | nil => simp at hk
  | cons p rest ih =>
      obtain ⟨k', v'⟩ := p
      by_cases h : k' = k
      · subst h
        simp [setEntry]
      · simp only [List.map_cons, List.mem_cons] at hk
        rcases hk with hk | hk

        · exact absurd hk.symm h
        · simp [setEntry, h, ih hk]

/-- Distinct values for the same key cannot both be in a map whose keys
are distinct. -/
theorem nodup_keys_eq_of_mem (m : List (String × Int)) (d : String)
    (t t' : Int) (hnd : (m.map Prod.fst).Nodup)
    (h1 : (d, t) ∈ m) (h2 : (d, t') ∈ m) : t = t' := by
  induction m with
  | nil => simp at h1
  | cons p rest ih =>
      simp only [List.map_cons, List.nodup_cons] at hnd
      simp only [List.mem_cons] at h1 h2
      rcases h1 with h1 | h1 <;> rcases h2 with h2 | h2
      · rw [← h2] at h1
        exact congrArg Prod.snd h1
      · exfalso
        apply hnd.1
        have hd : d ∈ List.map Prod.fst rest := by
          simpa using List.mem_map_of_mem Prod.fst h2
        simpa [← h1] using hd
      · exfalso
        apply hnd.1
        have hd : d ∈ List.map Prod.fst rest := by
          simpa using List.mem_map_of_mem Prod.fst h1
        simpa [← h2] using hd
      · exact ih hnd.2 h1 h2

/-- The state `load_faiss_index` leaves behind, for every deserialization
outcome: the metadata entry is touched exactly when the file exists. -/
theorem load_faiss_index_snd {α : Type} (deser : String → Except String α)
    (docId : String) (now : Int) (st : QAState) :
    (load_faiss_index deser docId now st).2 =
      if docId ∈ st.files then ⟨st.files, setEntry st.metadata docId now⟩
      else st := by
  unfold load_faiss_index
  by_cases h : docId ∈ st.files
  · simp only [if_pos h]
    cases deser docId <;> rfl
  · simp only [if_neg h]

/-! ## Claim theorems -/

/-- C1 (counterexample): on the metadata map `{d1 ↦ 0, d2 ↦ 90}` with both
index files present, at `now = 120` and threshold `60`, the sweep evicts
exactly `d1`, yet the value `clean_old_indexes` returns carries the id
`d2` — the retained entry — and not the evicted set `{d1}`. -/
theorem sweep_return_value_counterexample :
    (clean_old_indexes ⟨["d1", "d2"], [("d1", 0), ("d2", 90)]⟩ 120 60).2.map
        Prod.fst = ["d2"] ∧
    sweepEvictedIds [("d1", 0), ("d2", 90)] 120 60 = ["d1"] ∧
    (["d2"] : List String) ≠ ["d1"] := by
  decide

/-- C1 (amended): `clean_old_indexes` returns the retained metadata map —
the entries whose age is at most the threshold, in order — not the set of
evicted identifiers; that same map is persisted as the new metadata, and
an index file survives exactly when its id was not evicted. -/
theorem sweep_returns_retained_metadata (st : QAState) (now thr : Int) :
    (clean_old_indexes st now thr).2 =
        st.metadata.filter (fun p => now - p.2 ≤ thr) ∧
    (clean_old_indexes st now thr).1.metadata =
        (clean_old_indexes st now thr).2 ∧
    ∀ a, a ∈ (clean_old_indexes st now thr).1.files ↔
        a ∈ st.files ∧ a ∉ sweepEvictedIds st.metadata now thr := by
  refine ⟨clean_old_indexes_ret st now thr, rfl, ?_⟩
  intro a
  exact clean_old_indexes_files_mem st now thr a

/-- C2 (counterexample): with threshold `3` and sentences `["ab", "c"]`
(each within the threshold), the chunker emits the single chunk string
`"ab c"` of length `4 > 3`: the separator spaces of `" ".join` make an
emitted multi-sentence chunk exceed the threshold even though the
accumulated sentence length does not. -/
theorem chunk_size_bound_counterexample :
    chunkSentences 3 ["ab", "c"] = [["ab", "c"]] ∧
    chunkStrings 3 ["ab", "c"] = ["ab c"] ∧
    3 < ("ab c").length ∧ ("ab").length ≤ 3 ∧ ("c").length ≤ 3 := by
  decide

/-- C2 (amended): for every sentence sequence and threshold `T`, every
emitted chunk — except possibly a chunk holding a single sentence longer
than `T` — has total sentence character length at most `T`; the emitted
chunk string is that total plus one separator space per sentence
boundary, hence at most `T` plus the sentence count minus one. -/
theorem chunk_size_bound (T : Nat) (sentences : List String) :
    ∀ c ∈ chunkSentences T sentences,
      (String.intercalate " " c).length = chunkCharSum c + (c.length - 1) ∧
      (chunkCharSum c ≤ T ∨ ∃ s, c = [s] ∧ T < s.length) := by
  intro c hc
  exact ⟨intercalate_space_length c, chunkSentences_bound T sentences c hc⟩

/-- C2 (witness): the amended bound evaluated on the chunk `["ab", "c"]`
emitted at threshold `3`. -/
theorem chunk_size_bound_witness :
    (String.intercalate " " ["ab", "c"]).length =
        chunkCharSum ["ab", "c"] + (["ab", "c"].length - 1) ∧
    (chunkCharSum ["ab", "c"] ≤ 3 ∨ ∃ s, ["ab", "c"] = [s] ∧ 3 < s.length) :=
  chunk_size_bound 3 ["ab", "c"] ["ab", "c"] (by decide)

/-- C3: the sweep comparison is strict. An entry whose age equals the
threshold is retained (its metadata entry and, when present, its index
file survive); an entry whose age strictly exceeds the threshold is
evicted (its id is neither among the retained metadata keys nor among the
surviving files). Metadata keys are distinct, as in a Python dict. -/
theorem eviction_boundary_strict (st : QAState) (now thr : Int) (d : String)
    (t : Int) (hmem : (d, t) ∈ st.metadata)
    (hnd : (st.metadata.map Prod.fst).Nodup) :
    (now - t = thr →
      (d, t) ∈ (clean_old_indexes st now thr).2 ∧
        (d ∈ st.files → d ∈ (clean_old_indexes st now thr).1.files)) ∧
    (now - t > thr →
      d ∉ (clean_old_indexes st now thr).2.map Prod.fst ∧
        d ∉ (clean_old_indexes st now thr).1.files) := by
  constructor
  · intro heq
    constructor
    · rw [clean_old_indexes_ret]
      refine List.mem_filter.mpr ⟨hmem, by simp [heq]⟩
    · intro hf
      rw [clean_old_indexes_files_mem]
      refine ⟨hf, ?_⟩
      intro hev
      simp only [sweepEvictedIds, List.mem_map, List.mem_filter,
        decide_eq_true_eq] at hev
      obtain ⟨⟨d', t'⟩, ⟨hmem', hgt⟩, hfst⟩ := hev
      rw [show d' = d from hfst] at hmem'
      have := nodup_keys_eq_of_mem st.metadata d t' t hnd hmem' hmem
      omega
  · intro hgt
    constructor
    · intro hin
      rw [clean_old_indexes_ret] at hin
      simp only [List.mem_map, List.mem_filter, decide_eq_true_eq] at hin
      obtain ⟨⟨d', t'⟩, ⟨hmem', hle⟩, hfst⟩ := hin
      rw [show d' = d from hfst] at hmem'
      have := nodup_keys_eq_of_mem st.metadata d t' t hnd hmem' hmem
      omega
    · intro hin
      rw [clean_old_indexes_files_mem] at hin
      refine hin.2 ?_
      simp only [sweepEvictedIds, List.mem_map, List.mem_filter,
        decide_eq_true_eq]
      exact ⟨(d, t), ⟨hmem, hgt⟩, rfl⟩

/-- C3 (witness): with metadata `{d1 ↦ 0, d2 ↦ 60}` at `now = 120`,
threshold `60`: `d2` (age exactly 60) is retained, `d1` (age 120) loses
its file. -/
theorem eviction_boundary_strict_witness :
    ("d2", (60 : Int)) ∈
        (clean_old_indexes ⟨["d1", "d2"], [("d1", 0), ("d2", 60)]⟩ 120 60).2 ∧
    "d1" ∉ (clean_old_indexes ⟨["d1", "d2"], [("d1", 0), ("d2", 60)]⟩
        120 60).1.files :=
  ⟨((eviction_boundary_strict ⟨["d1", "d2"], [("d1", 0), ("d2", 60)]⟩ 120 60
        "d2" 60 (by decide) (by decide)).1 (by decide)).1,
    ((eviction_boundary_strict ⟨["d1", "d2"], [("d1", 0), ("d2", 60)]⟩ 120 60
        "d1" 0 (by decide) (by decide)).2 (by decide)).2⟩

/-- C4: for every threshold and sentence sequence, concatenating the
sentences of the emitted chunks in emission order reproduces the input
sequence exactly — order preserved, nothing duplicated or dropped. -/
theorem chunk_concat_reconstructs (T : Nat) (sentences : List String) :
    (chunkSentences T sentences).flatten = sentences := by
  simp [chunkSentences, chunkRec_flatten]

/-- C5: a QA request for a document id absent from the document store
returns successfully with the literal sentinel payload and leaves the
index store and metadata map untouched. -/
theorem answer_absent_document {α : Type} (segment : String → List String)
    (deser : String → Except String α) (buildIndex : List String → α)
    (ragAnswer : α → String → String) (now : Int)
    (docs : List (String × String)) (question docId : String) (st : QAState)
    (habs : getDocument docs docId = none) :
    generate_answer_by_id segment deser buildIndex ragAnswer now docs question
        docId st = .ok ("No document found with id " ++ docId, st) := by
  simp [generate_answer_by_id, habs]

/-- C5 (witness): the sentinel on an empty document store. -/
theorem answer_absent_document_witness :
    @generate_answer_by_id Nat (fun _ => []) (fun _ => Except.error "e")
        (fun _ => 0) (fun _ _ => "") 0 [] "q" "missing" ⟨[], []⟩ =
      Except.ok ("No document found with id " ++ "missing", ⟨[], []⟩) :=
  answer_absent_document _ _ _ _ 0 [] "q" "missing" ⟨[], []⟩ rfl

/-- C6 (counterexample): `generate_answer_by_id` called directly with an
empty question and an empty document id does not fail with any error — it
returns the successful no-document sentinel, so the orchestrator performs
no defensive re-validation of its inputs. -/
theorem generate_answer_no_validation_counterexample :
    @generate_answer_by_id Nat (fun _ => []) (fun _ => Except.error "boom")
        (fun _ => 0) (fun _ _ => "") 0 [] "" "" ⟨[], []⟩ =
      Except.ok ("No document found with id ", ⟨[], []⟩) ∧
    ∀ e, @generate_answer_by_id Nat (fun _ => []) (fun _ => Except.error "boom")
        (fun _ => 0) (fun _ _ => "") 0 [] "" "" ⟨[], []⟩ ≠ Except.error e := by
  refine ⟨rfl, fun e h => ?_⟩
  simp [generate_answer_by_id, getDocument] at h

/-- C6 (amended): input validation lives only in `validate_qa_request`,
which the `/qa` endpoint runs before the orchestrator: an endpoint request
with an empty question or document id fails with a 400 error before any
processing, while a direct call to `generate_answer_by_id` is not
re-validated (an empty document id absent from the store just yields the
no-document sentinel). -/
theorem qa_validation_location {α : Type} (segment : String → List String)
    (deser : String → Except String α) (buildIndex : List String → α)
    (ragAnswer : α → String → String) (now : Int)
    (docs : List (String × String)) (question docId : String) (st : QAState)
    (h : question = "" ∨ docId = "") :
    (∃ e : HttpError, e.status_code = 400 ∧
      ask_question segment deser buildIndex ragAnswer now docs question docId
        st = .error e) ∧
    (getDocument docs docId = none →
      generate_answer_by_id segment deser buildIndex ragAnswer now docs
          question docId st =
        .ok ("No document found with id " ++ docId, st)) := by
  constructor
  · by_cases hq : question = ""
    · refine ⟨⟨400, "Question cannot be empty"⟩, rfl, ?_⟩
      simp [ask_question, validate_qa_request, hq]
    · have hd : docId = "" := h.resolve_left hq
      refine ⟨⟨400, "Document ID is required"⟩, rfl, ?_⟩
      simp [ask_question, validate_qa_request, hq, hd]
  · intro habs
    simp [generate_answer_by_id, habs]

/-- C6 (witness): empty question and document id on an empty store. -/
theorem qa_validation_location_witness :
    (∃ e : HttpError, e.status_code = 400 ∧
      @ask_question Nat (fun _ => []) (fun _ => Except.error "e") (fun _ => 0)
          (fun _ _ => "") 0 [] "" "" ⟨[], []⟩ = .error e) ∧
    (getDocument [] "" = none →
      @generate_answer_by_id Nat (fun _ => []) (fun _ => Except.error "e")
          (fun _ => 0) (fun _ _ => "") 0 [] "" "" ⟨[], []⟩ =
        .ok ("No document found with id " ++ "", ⟨[], []⟩)) :=
  qa_validation_location _ _ _ _ 0 [] "" "" ⟨[], []⟩ (Or.inl rfl)

/-- C7: each completed store operation preserves the consistency
invariant: assuming a metadata entry exists exactly for the ids with a
persisted index file (and metadata keys are distinct, as in a Python
dict), the invariant holds again after `save_faiss_index`, after
`load_faiss_index` (whatever its outcome), and after
`clean_old_indexes`. -/
theorem store_metadata_invariant {α : Type} (deser : String → Except String α)
    (st : QAState) (d : String) (now thr : Int) (hinv : StoreInv st)
    (hnd : (st.metadata.map Prod.fst).Nodup) :
    StoreInv (save_faiss_index d now st) ∧
    StoreInv (load_faiss_index deser d now st).2 ∧
    StoreInv (clean_old_indexes st now thr).1 := by
  refine ⟨?_, ?_, ?_⟩
  · intro x
    simp only [save_faiss_index]
    rw [mem_keys_setEntry]
    by_cases hd : d ∈ st.files
    · rw [if_pos hd]
      constructor
      · rintro (hx | rfl)
        · exact (hinv x).mp hx
        · exact hd
      · intro hx
        exact Or.inl ((hinv x).mpr hx)
    · rw [if_neg hd]
      simp only [List.mem_append, List.mem_singleton]
      constructor
      · rintro (hx | rfl)
        · exact Or.inl ((hinv x).mp hx)
        · exact Or.inr rfl
      · rintro (hx | rfl)
        · exact Or.inl ((hinv x).mpr hx)
        · exact Or.inr rfl
  · rw [load_faiss_index_snd]
    by_cases hd : d ∈ st.files
    · rw [if_pos hd]
      intro x
      simp only
      rw [setEntry_keys_of_mem st.metadata d now ((hinv d).mpr hd)]
      exact hinv x
    · rw [if_neg hd]
      exact hinv
  · intro x
    rw [clean_old_indexes_files_mem]
    have hmeta : (clean_old_indexes st now thr).1.metadata =
        st.metadata.filter (fun p => now - p.2 ≤ thr) :=
      clean_old_indexes_ret st now thr
    rw [hmeta]
    constructor
    · intro hx
      simp only [List.mem_map, List.mem_filter, decide_eq_true_eq] at hx
      obtain ⟨⟨d', t⟩, ⟨hmem, hle⟩, hfst⟩ := hx
      rw [show d' = x from hfst] at hmem
      refine ⟨(hinv x).mp (List.mem_map_of_mem Prod.fst hmem), ?_⟩
      intro hev
      simp only [sweepEvictedIds, List.mem_map, List.mem_filter,
        decide_eq_true_eq] at hev
      obtain ⟨⟨d'', t'⟩, ⟨hmem', hgt⟩, hfst'⟩ := hev
      rw [show d'' = x from hfst'] at hmem'
      have := nodup_keys_eq_of_mem st.metadata x t' t hnd hmem' hmem
      omega
    · rintro ⟨hf, hnev⟩
      have hx : x ∈ st.metadata.map Prod.fst := (hinv x).mpr hf
      simp only [List.mem_map] at hx
      obtain ⟨⟨d', t⟩, hmem, hfst⟩ := hx
      rw [show d' = x from hfst] at hmem
      by_cases hage : now - t > thr
      · exfalso
        refine hnev ?_
        simp only [sweepEvictedIds, List.mem_map, List.mem_filter,
          decide_eq_true_eq]
        exact ⟨(x, t), ⟨hmem, hage⟩, rfl⟩
      · simp only [List.mem_map, List.mem_filter, decide_eq_true_eq]
        exact ⟨(x, t), ⟨hmem, not_lt.mp hage⟩, rfl⟩

/-- C7 (witness): the invariant after saving a new index `e` over the
consistent state with a single indexed document `d`. -/
theorem store_metadata_invariant_witness :
    StoreInv (save_faiss_index "e" 5 ⟨["d"], [("d", 0)]⟩) :=
  (@store_metadata_invariant String (fun _ => Except.error "")
      ⟨["d"], [("d", 0)]⟩ "e" 5 0 (fun _ => Iff.rfl) (by decide)).1

/-- C8 (counterexample): a failing sweep outcome passes through
`cleanup_job` unchanged — the job propagates the error to its caller
instead of containing it. -/
theorem cleanup_job_propagates_counterexample :
    cleanup_job (Except.error "metadata load failed") =
      Except.error "metadata load failed" ∧
    ∀ ids, cleanup_job (Except.error "metadata load failed") ≠
      Except.ok ids := by
  refine ⟨rfl, fun ids h => ?_⟩
  simp [cleanup_job] at h

/-- C8 (amended): `cleanup_job` performs no error handling of its own:
a sweep failure propagates unchanged to the caller of the job (the
scheduler framework, outside this repository), and on success the job
logs the ids of the retained indexes. -/
theorem cleanup_job_error_semantics (e : String)
    (r : QAState × List (String × Int)) :
    cleanup_job (Except.error e) = Except.error e ∧
    cleanup_job (Except.ok r) = Except.ok (r.2.map Prod.fst) :=
  ⟨rfl, rfl⟩

/-- C9: when the first sentence alone is longer than the threshold 1600,
the flush-before-add appends the join of the still-empty accumulator, so
the first emitted chunk string is the empty string. -/
theorem first_chunk_empty_on_oversized (s : String) (rest : List String)
    (h : 1600 < s.length) :
    (chunkStrings 1600 (s :: rest)).head? = some "" := by
  have hstep : chunkSentences 1600 (s :: rest) =
      chunkRec 1600 rest [[]] [s] s.length := by
    simp only [chunkSentences, chunkRec]
    rw [if_pos (by omega)]
    simp
  obtain ⟨tl, htl⟩ := chunkRec_extends 1600 rest [[]] [s] s.length
  rw [chunkStrings, hstep, htl]
  simp [String.intercalate]

set_option maxRecDepth 40000 in
/-- C9 (witness): a 1601-character first sentence produces a leading empty
chunk string. -/
theorem first_chunk_empty_on_oversized_witness :
    1600 < (String.mk (List.replicate 1601 'a')).length ∧
    (chunkStrings 1600 [String.mk (List.replicate 1601 'a')]).head? =
      some "" :=
  ⟨by decide, first_chunk_empty_on_oversized _ [] (by decide)⟩

/-- C10: when the index file for `docId` exists but deserialization
fails, `load_faiss_index` raises that error with the metadata entry
already touched and persisted: the resulting state carries the updated
map, not the original one. -/
theorem load_touch_precedes_deserialize {α : Type}
    (deser : String → Except String α) (d : String) (now : Int)
    (st : QAState) (e : String) (hfile : d ∈ st.files)
    (herr : deser d = .error e) :
    load_faiss_index deser d now st =
      (Except.error e, ⟨st.files, setEntry st.metadata d now⟩) := by
  simp [load_faiss_index, hfile, herr]

/-- C10 (witness): a corrupt index file for `d` leaves the error together
with the freshly touched timestamp, which differs from the original
metadata. -/
theorem load_touch_precedes_deserialize_witness :
    @load_faiss_index Nat (fun _ => Except.error "corrupt") "d" 5
        ⟨["d"], [("d", 0)]⟩ =
      (Except.error "corrupt", ⟨["d"], setEntry [("d", 0)] "d" 5⟩) ∧
    setEntry [("d", 0)] "d" 5 ≠ [("d", 0)] :=
  ⟨load_touch_precedes_deserialize (fun _ => Except.error "corrupt") "d" 5
      ⟨["d"], [("d", 0)]⟩ "corrupt" (by decide) rfl,
    by decide⟩

end DocQA
